import Mathlib

/-!
Verification of the audio core of the Kiosk-Dashboard repository
(py-xiaozhi audio pipeline): bounded queues with drop-oldest policy,
the music decoder's dual rate limiter, playback-queue frame-length
normalization, the downmix routine, and the MusicPlayer state machine.

Python `asyncio.Queue` objects are modelled as a maxsize plus a list of
items (front = oldest).  Exceptions that escape a modelled function are
represented by `Option` (`none` = uncaught exception); exceptions that
the source catches are folded into the returned value.  Wall-clock time
and float arithmetic are modelled exactly over `ℚ`.
-/

namespace Kiosk

/-- Model of `asyncio.Queue`: bounded FIFO.  `items.head` is the oldest
element.  `maxsize = 0` would mean unbounded in asyncio; every queue in
the audio core is created with a positive maxsize. -/
structure BQueue (α : Type) where
  maxsize : Nat
  items : List α
  deriving Repr, DecidableEq

namespace BQueue

/-- `asyncio.Queue.full()`: true when `maxsize > 0` and `qsize ≥ maxsize`. -/
def full (q : BQueue α) : Bool :=
  decide (0 < q.maxsize) && decide (q.maxsize ≤ q.items.length)

/-- `put_nowait`: append at the back, or raise `QueueFull` (`none`). -/
def put_nowait (q : BQueue α) (x : α) : Option (BQueue α) :=
  if q.full then none else some { q with items := q.items ++ [x] }

/-- `get_nowait`: pop the front, or raise `QueueEmpty` (`none`). -/
def get_nowait (q : BQueue α) : Option (α × BQueue α) :=
  match q.items with
  | [] => none
  | x :: rest => some (x, { q with items := rest })

end BQueue

/-- `src/utils/audio_utils.py` `safe_queue_put`: try `put_nowait`; on
`QueueFull`, if `replace_oldest` then `get_nowait` (dropping the oldest)
and `put_nowait` the new item, else report failure.  The result is
`none` only when a `QueueFull` raised inside the `except` handler would
have propagated out of the Python function (impossible for a queue with
positive maxsize). -/
def safe_queue_put (q : BQueue α) (item : α) (replace_oldest : Bool) :
    Option (BQueue α × Bool) :=
  match q.put_nowait item with
  | some q2 => some (q2, true)
  | none =>
    if replace_oldest then
      match q.get_nowait with
      | some (_, q2) =>
        match q2.put_nowait item with
        | some q3 => some (q3, true)
        | none => none
      | none =>
        match q.put_nowait item with
        | some q2 => some (q2, true)
        | none => none
    else
      some (q, false)

/-- Repeated `safe_queue_put` with `replace_oldest = True`, collecting
each call's boolean result. -/
def safe_put_run (q : BQueue α) : List α → Option (BQueue α × List Bool)
  | [] => some (q, [])
  | x :: xs =>
    match safe_queue_put q x true with
    | none => none
    | some (q2, b) =>
      match safe_put_run q2 xs with
      | none => none
      | some (q3, bs) => some (q3, b :: bs)

/-- State of `WakeWordDetector` relevant to `on_audio_data`
(`src/audio_processing/wake_word_detect.py`); `_audio_queue` is created
with `maxsize=100`. -/
structure WWState where
  enabled : Bool
  is_running_flag : Bool
  paused : Bool
  audio_queue : BQueue (List ℤ)
  deriving Repr, DecidableEq

/-- `WakeWordDetector.on_audio_data`: when active, `put_nowait` the
frame; on `QueueFull` drop the oldest and retry; on `QueueEmpty` during
the retry, `put_nowait` directly. -/
def on_audio_data (s : WWState) (d : List ℤ) : Option WWState :=
  if s.enabled = false || s.is_running_flag = false || s.paused then some s
  else
    match s.audio_queue.put_nowait d with
    | some q => some { s with audio_queue := q }
    | none =>
      match s.audio_queue.get_nowait with
      | some (_, q2) =>
        match q2.put_nowait d with
        | some q3 => some { s with audio_queue := q3 }
        | none => none
      | none =>
        match s.audio_queue.put_nowait d with
        | some q => some { s with audio_queue := q }
        | none => none

/-!  ## MusicDecoder dual rate limiter (`src/audio_codecs/music_decoder.py`) -/

/-- Modelled from the spec: `src/constants/constants.py` (class
`AudioConfig`) is not included under `src/`.  The spec fixes the render
wire format at 24 kHz mono with a 60 ms frame duration. -/
def OUTPUT_SAMPLE_RATE : Nat := 24000

/-- Modelled from the spec: render channel count (mono wire format). -/
def CHANNELS : Nat := 1

/-- Modelled from the spec: frame duration in milliseconds. -/
def FRAME_DURATION : Nat := 60

/-- Modelled from the spec: samples per output frame,
`sample_rate * frame_duration / 1000`. -/
def OUTPUT_FRAME_SIZE : Nat := OUTPUT_SAMPLE_RATE * FRAME_DURATION / 1000

/-- `_read_pcm_stream` strategy 1: occupancy-based dynamic delay.
`queue_ratio = qsize / maxsize if maxsize > 0 else 0`; below 30 %
no delay, 30–70 % a 0.03 s delay, 70 % or more a 0.06 s delay. -/
def queue_based_sleep (qsize qmaxsize : Nat) : ℚ :=
  let ratio : ℚ := if 0 < qmaxsize then (qsize : ℚ) / (qmaxsize : ℚ) else 0
  if ratio < 3/10 then 0
  else if ratio < 7/10 then 3/100
  else 6/100

/-- `_read_pcm_stream` strategy 2: wall-clock fallback.  Expected
elapsed playback time is `frame_count * (frame_duration_ms / 1000)`;
when the actual elapsed time is smaller the decoder waits out the
difference. -/
def time_based_sleep (frame_count : Nat) (frame_duration_ms actual_elapsed : ℚ) : ℚ :=
  if actual_elapsed < (frame_count : ℚ) * (frame_duration_ms / 1000) then
    (frame_count : ℚ) * (frame_duration_ms / 1000) - actual_elapsed
  else 0

/-- `_read_pcm_stream`: the applied delay is the maximum of the two
strategies. -/
def target_sleep (qsize qmaxsize frame_count : Nat)
    (frame_duration_ms actual_elapsed : ℚ) : ℚ :=
  max (queue_based_sleep qsize qmaxsize)
    (time_based_sleep frame_count frame_duration_ms actual_elapsed)

/-- Spec-side formulation of the occupancy-based delay, written from
the spec sentence: fill ratio < 30 % → no delay; 30–70 % → ~30 ms;
≥ 70 % → ~60 ms. -/
def spec_occupancy_delay (fill : ℚ) : ℚ :=
  if fill < 3/10 then 0
  else if fill < 7/10 then 3/100
  else 6/100

/-- Spec-side formulation of the wall-clock delay, written from the
spec sentence: frame-count × frame-duration minus actual elapsed time
when the decoder runs ahead, and 0 otherwise. -/
def spec_wallclock_delay (frame_count : Nat) (frame_duration_s actual_elapsed : ℚ) : ℚ :=
  max 0 ((frame_count : ℚ) * frame_duration_s - actual_elapsed)

/-- Decoder loop state for `_read_pcm_stream`: frames decoded so far,
current wall-clock time, and the recorded `start_time`. -/
structure DecState where
  frame_count : Nat
  now : ℚ
  start_time : ℚ
  deriving Repr, DecidableEq

/-- Environment of one iteration of the decoder loop: how long the
subprocess read took, how much `asyncio.sleep` overshot the requested
delay, how long the queue `put` took, the destination queue occupancy
observed when the fill ratio is read, and whether the 5 s `put`
timeout fired (frame skipped). -/
structure DecEnv where
  read_delay : ℚ
  sleep_extra : ℚ
  put_delay : ℚ
  qsize : Nat
  qmaxsize : Nat
  put_timeout : Bool
  deriving Repr, DecidableEq

/-- All iteration delays are non-negative (reads, sleeps and puts take
time forward). -/
def DecEnv.valid (e : DecEnv) : Prop :=
  0 ≤ e.read_delay ∧ 0 ≤ e.sleep_extra ∧ 0 ≤ e.put_delay

/-- One iteration of the `while` loop in `_read_pcm_stream` after a
non-empty chunk was read: increment `frame_count`, apply the dual
rate-limit delay, then enqueue the frame (or skip it after the 5 s
timeout).  Returns the new state and, when the frame was enqueued, the
event `(frame index, wall-clock time at the enqueue)`. -/
def decoder_step (frame_duration_ms : ℚ) (s : DecState) (e : DecEnv) :
    DecState × Option (Nat × ℚ) :=
  let t1 := s.now + e.read_delay
  let fc := s.frame_count + 1
  let sleep := target_sleep e.qsize e.qmaxsize fc frame_duration_ms (t1 - s.start_time)
  let t2 := t1 + sleep + e.sleep_extra
  if e.put_timeout then ({ frame_count := fc, now := t2 + 5, start_time := s.start_time }, none)
  else ({ frame_count := fc, now := t2 + e.put_delay, start_time := s.start_time },
        some (fc, t2 + e.put_delay))

/-- Run of the decoder loop over a list of iteration environments,
collecting all enqueue events. -/
def decoder_run (frame_duration_ms : ℚ) (s : DecState) :
    List DecEnv → DecState × List (Nat × ℚ)
  | [] => (s, [])
  | e :: es =>
    let p := decoder_step frame_duration_ms s e
    let r := decoder_run frame_duration_ms p.1 es
    (r.1, p.2.toList ++ r.2)

/-!  ## AudioCodec playback queue (`src/audio_codecs/audio_codec.py`) -/

/-- `AudioCodec.__init__`: `self._output_buffer = asyncio.Queue(maxsize=500)`. -/
def init_output_buffer : BQueue (List ℤ) := { maxsize := 500, items := [] }

/-- `AudioCodec.write_audio` after a successful Opus decode of one
frame (`audio_array`): frames whose sample count differs from
`OUTPUT_FRAME_SIZE * CHANNELS` are dropped without enqueueing; others
are enqueued with `safe_queue_put(..., replace_oldest=True)`.  Any
exception is caught by the enclosing `except` (frame dropped), so the
unreachable `none` branch leaves the queue unchanged. -/
def write_audio (q : BQueue (List ℤ)) (audio_array : List ℤ) : BQueue (List ℤ) :=
  if audio_array.length ≠ OUTPUT_FRAME_SIZE * CHANNELS then q
  else
    match safe_queue_put q audio_array true with
    | some (q2, _) => q2
    | none => q

/-- Length normalization in `AudioCodec.write_pcm_direct`: pad short
input with trailing zero samples, truncate long input, to exactly
`OUTPUT_FRAME_SIZE * CHANNELS` samples. -/
def normalize_pcm (pcm_data : List ℤ) : List ℤ :=
  if pcm_data.length < OUTPUT_FRAME_SIZE * CHANNELS then
    pcm_data ++ List.replicate (OUTPUT_FRAME_SIZE * CHANNELS - pcm_data.length) 0
  else pcm_data.take (OUTPUT_FRAME_SIZE * CHANNELS)

/-- `AudioCodec.write_pcm_direct`: normalize the frame length, then
`safe_queue_put(..., replace_oldest=False)`; when the queue is full the
source falls back to a blocking `put` with a 2 s timeout.  A blocking
put can only complete once the render callback has made room (modelled
as an explicit dequeue step happening first), so within a single call
on a full queue the timeout path applies and the frame is dropped. -/
def write_pcm_direct (q : BQueue (List ℤ)) (pcm_data : List ℤ) : BQueue (List ℤ) :=
  match safe_queue_put q (normalize_pcm pcm_data) false with
  | some (q2, true) => q2
  | some (_, false) => q
  | none => q

/-- Producer/consumer operations on the shared playback queue: a voice
frame via `write_audio`, a music frame via `write_pcm_direct`, one
render-callback pop, or `clear_audio_queue`. -/
inductive CodecOp
  | voice (pcm : List ℤ)
  | music (pcm : List ℤ)
  | deq
  | clear
  deriving Repr, DecidableEq

/-- Apply one queue operation. -/
def codec_apply (q : BQueue (List ℤ)) : CodecOp → BQueue (List ℤ)
  | .voice pcm => write_audio q pcm
  | .music pcm => write_pcm_direct q pcm
  | .deq =>
    match q.get_nowait with
    | some (_, q2) => q2
    | none => q
  | .clear => { q with items := [] }

/-- Apply a sequence of queue operations. -/
def codec_run (q : BQueue (List ℤ)) (ops : List CodecOp) : BQueue (List ℤ) :=
  ops.foldl codec_apply q

/-!  ## MusicPlayer state machine (`src/mcp/tools/music/music_player.py`)
and the TTS arbitration in `src/plugins/audio.py` -/

/-- Result classification of a MusicPlayer transport call, following
the `status` field of the returned dict.  A raised-and-caught exception
(the `except Exception` blocks) yields `error`. -/
inductive StatusKind
  | success
  | info
  | error
  deriving Repr, DecidableEq

/-- The `_pause_source` tag values of `MusicPlayer` (the Python source
stores them as the strings `manual` and `tts`). -/
inductive PauseSrc
  | manual
  | tts
  deriving Repr, DecidableEq

/-- The attributes of `MusicPlayer` the transport state machine reads
and writes.  `pending_play` and `pending_file_path` use `Option` with
`none` meaning the attribute was never assigned (reading it raises
`AttributeError`); the decoder field holds the file and start offset
the current `MusicDecoder` was started with. -/
structure PlayerState where
  is_playing : Bool
  paused : Bool
  pause_source : Option PauseSrc
  current_position : ℚ
  total_duration : ℚ
  start_play_time : ℚ
  current_file_path : Option Nat
  deferred_start_path : Option Nat
  deferred_start_position : ℚ
  decoder : Option (Nat × ℚ)
  music_queue : List (List ℤ)
  output_queue : BQueue (List ℤ)
  pending_play : Option Bool
  pending_file_path : Option Nat
  deriving Repr, DecidableEq

/-- External facts a transport call depends on: the current wall-clock
time, whether assistant speech (TTS) is active, whether
`MusicDecoder.start_decode` succeeds, and whether the current file
still exists on disk. -/
structure PlayerEnv where
  now : ℚ
  speaking : Bool
  decode_ok : Bool
  file_exists : Bool
  deriving Repr, DecidableEq

/-- `MusicPlayer.__init__`: playback state starts stopped;
`_pending_play` and `_pending_file_path` are never assigned. -/
def MusicPlayer.init : PlayerState :=
  { is_playing := false
    paused := false
    pause_source := none
    current_position := 0
    total_duration := 0
    start_play_time := 0
    current_file_path := none
    deferred_start_path := none
    deferred_start_position := 0
    decoder := none
    music_queue := []
    output_queue := init_output_buffer
    pending_play := none
    pending_file_path := none }

/-- `MusicPlayer._start_playback(file_path, start_position)`: when TTS
is speaking, record a deferred start and mark `is_playing ∧ paused`
without starting a decoder; otherwise clear the deferred flags, create
a fresh internal queue, start the decoder at `start_position`, and on
success mark Playing with the play-start timestamp adjusted by the
offset. -/
def start_playback (s : PlayerState) (file_path : Nat) (start_position : ℚ)
    (env : PlayerEnv) : PlayerState × Bool :=
  if env.speaking then
    ({ s with deferred_start_path := some file_path
              deferred_start_position := start_position
              is_playing := true
              paused := true }, true)
  else
    let s1 := { s with deferred_start_path := none
                       deferred_start_position := 0
                       current_file_path := some file_path
                       music_queue := []
                       decoder := some (file_path, start_position) }
    if env.decode_ok then
      ({ s1 with is_playing := true
                 paused := false
                 pending_play := some false
                 current_position := start_position
                 start_play_time := env.now - start_position }, true)
    else (s1, false)

/-- `MusicPlayer.resume`: only meaningful when `is_playing ∧ paused`
with a valid current file; recreates the internal queue, restarts the
decoder at `current_position`, clears the pause flags and re-bases the
play-start timestamp. -/
def resume (s : PlayerState) (env : PlayerEnv) : PlayerState × StatusKind :=
  if s.is_playing = false then (s, .info)
  else if s.paused = false then (s, .info)
  else
    match s.current_file_path with
    | none => (s, .error)
    | some file_path =>
      if env.file_exists = false then (s, .error)
      else
        let s1 := { s with music_queue := []
                           decoder := some (file_path, s.current_position) }
        if env.decode_ok then
          ({ s1 with paused := false
                     pause_source := none
                     start_play_time := env.now - s.current_position }, .success)
        else (s1, .error)

/-- `AudioPlugin._resume_music_after_tts` (speech-stop handler): if a
deferred start is recorded, clear it and perform the deferred
`_start_playback` now; else if playing and paused with source `"tts"`,
call `resume()`; otherwise do nothing. -/
def resume_music_after_tts (s : PlayerState) (env : PlayerEnv) : PlayerState :=
  match s.deferred_start_path with
  | some file_path =>
    let start_pos := s.deferred_start_position
    let s1 := { s with deferred_start_path := none, deferred_start_position := 0 }
    (start_playback s1 file_path start_pos env).1
  | none =>
    if s.is_playing && s.paused then
      if s.pause_source = some PauseSrc.tts then (resume s env).1 else s
    else s

/-- The position clamp in `MusicPlayer.seek`: negative targets become
0; targets at or past `total_duration` become `max 0 (duration − 1)`. -/
def seek_clamp (position total_duration : ℚ) : ℚ :=
  if position < 0 then 0
  else if total_duration ≤ position then max 0 (total_duration - 1)
  else position

/-- `MusicPlayer.seek(position)`: rejected unless `is_playing` with an
existing current file; clamps the target, stops the decoder, drains the
internal music queue and the shared `AudioCodec` queue
(`clear_audio_queue`), and restarts playback at the clamped offset via
`_start_playback`. -/
def seek (s : PlayerState) (position : ℚ) (env : PlayerEnv) :
    PlayerState × StatusKind :=
  if s.is_playing = false then (s, .error)
  else
    match s.current_file_path with
    | none => (s, .error)
    | some file_path =>
      if env.file_exists = false then (s, .error)
      else
        let target := seek_clamp position s.total_duration
        let s1 := { s with decoder := none
                           music_queue := []
                           output_queue := { s.output_queue with items := [] } }
        let r := start_playback s1 file_path target env
        (r.1, if r.2 then .success else .error)

/-- The body of `MusicPlayer.stop` once the early-exit guard fell
through: stop the decoder, drain the internal queue and reset all
transport state (the shared output queue is not cleared here). -/
def stop_body (s : PlayerState) : PlayerState × StatusKind :=
  ({ s with decoder := none
            music_queue := []
            is_playing := false
            paused := false
            pause_source := none
            pending_play := some false
            pending_file_path := none
            current_position := 0 }, .success)

/-- `MusicPlayer.stop`: the guard
`if not self.is_playing and not self._pending_play` short-circuits, so
`_pending_play` is read only when `is_playing` is false; if the
attribute was never assigned, the read raises `AttributeError`, which
the enclosing `except Exception` turns into a `"停止失败"` error result
with no state change. -/
def stop (s : PlayerState) : PlayerState × StatusKind :=
  if s.is_playing = false then
    match s.pending_play with
    | none => (s, .error)
    | some pp => if pp = false then (s, .info) else stop_body s
  else stop_body s

/-- The externally reported playing state in `MusicPlayer.get_status`:
`"未播放"` (not playing), `"已暂停"` (paused), `"播放中"` (playing) or
`"未知"` (unknown). -/
inductive PlayView
  | not_playing
  | paused_view
  | playing_view
  | unknown
  deriving Repr, DecidableEq

/-- `MusicPlayer.get_status` playing-state computation: report paused
only when the pause source is `"manual"`; a TTS-sourced pause is
reported as still playing. -/
def get_status_view (s : PlayerState) : PlayView :=
  if s.is_playing = false then .not_playing
  else if s.paused = true ∧ s.pause_source = some PauseSrc.manual then .paused_view
  else if s.is_playing = true then .playing_view
  else .unknown

/-!  ## downmix_to_mono (`src/utils/audio_utils.py`), integer branch.
The float32 detour of the source is modelled exactly over `ℚ`. -/

/-- `np.iinfo(np.int16).min`. -/
def INT16_MIN : ℤ := -32768

/-- `np.iinfo(np.int16).max`. -/
def INT16_MAX : ℤ := 32767

/-- `np.rint`: round to the nearest integer, halves to the even
neighbor. -/
def np_rint (q : ℚ) : ℤ :=
  if q - ⌊q⌋ < 1/2 then ⌊q⌋
  else if 1/2 < q - ⌊q⌋ then ⌊q⌋ + 1
  else if Even ⌊q⌋ then ⌊q⌋ else ⌊q⌋ + 1

/-- `np.clip(z, lo, hi)`. -/
def np_clip (z lo hi : ℤ) : ℤ := max lo (min z hi)

/-- The per-sample arithmetic mean across channels,
`x.astype(np.float32).mean(axis=1)` for one sample row. -/
def row_mean (row : List ℤ) : ℚ := (row.sum : ℚ) / (row.length : ℚ)

/-- One output sample of the multi-channel integer branch of
`downmix_to_mono`: `np.clip(np.rint(mean), info.min, info.max)`. -/
def downmix_row (row : List ℤ) : ℤ :=
  np_clip (np_rint (row_mean row)) INT16_MIN INT16_MAX

/-- `downmix_to_mono` on an `(N, C)` int16 ndarray (`keepdims`
dropped): a single-channel array is returned as-is, a multi-channel
array is averaged per sample, rounded and clamped. -/
def downmix_to_mono (C : Nat) (frame : List (List ℤ)) : List ℤ :=
  if C = 1 then frame.map (fun row => row.headI)
  else frame.map downmix_row

/-!  ## Theorems -/

/-- The source's wall-clock fallback delay coincides with the spec's
`max 0 (expected − actual)` formulation. -/
lemma time_based_sleep_eq_spec (fc : Nat) (d a : ℚ) :
    time_based_sleep fc d a = spec_wallclock_delay fc (d / 1000) a := by
  unfold time_based_sleep spec_wallclock_delay
  split_ifs with h
  · exact (max_eq_right (by linarith)).symm
  · exact (max_eq_left (by linarith)).symm

/-- For a bounded destination queue the source's occupancy delay is the
spec's piecewise delay applied to the fill ratio. -/
lemma queue_based_sleep_eq_spec (qsize qmaxsize : Nat) (hq : 0 < qmaxsize) :
    queue_based_sleep qsize qmaxsize =
      spec_occupancy_delay ((qsize : ℚ) / (qmaxsize : ℚ)) := by
  unfold queue_based_sleep spec_occupancy_delay
  simp [hq]

/-- C1: before enqueueing each decoded frame, the decoder loop advances
the clock by exactly the read time, the applied delay, any sleep
overshoot and the put time, and the applied delay is the maximum of the
spec's occupancy-based piecewise delay (at the observed fill ratio) and
the spec's wall-clock delay (expected elapsed minus actual elapsed when
ahead, 0 otherwise). -/
theorem C1_dual_rate_limit (frame_duration_ms : ℚ) (s : DecState) (e : DecEnv)
    (hq : 0 < e.qmaxsize) (hp : e.put_timeout = false) :
    (decoder_step frame_duration_ms s e).1.now =
      s.now + e.read_delay
        + max (spec_occupancy_delay ((e.qsize : ℚ) / (e.qmaxsize : ℚ)))
            (spec_wallclock_delay (s.frame_count + 1) (frame_duration_ms / 1000)
              (s.now + e.read_delay - s.start_time))
        + e.sleep_extra + e.put_delay
    ∧ target_sleep e.qsize e.qmaxsize (s.frame_count + 1) frame_duration_ms
        (s.now + e.read_delay - s.start_time) =
      max (spec_occupancy_delay ((e.qsize : ℚ) / (e.qmaxsize : ℚ)))
        (spec_wallclock_delay (s.frame_count + 1) (frame_duration_ms / 1000)
          (s.now + e.read_delay - s.start_time)) := by
  have hts : target_sleep e.qsize e.qmaxsize (s.frame_count + 1) frame_duration_ms
      (s.now + e.read_delay - s.start_time) =
      max (spec_occupancy_delay ((e.qsize : ℚ) / (e.qmaxsize : ℚ)))
        (spec_wallclock_delay (s.frame_count + 1) (frame_duration_ms / 1000)
          (s.now + e.read_delay - s.start_time)) := by
    unfold target_sleep
    rw [queue_based_sleep_eq_spec _ _ hq, time_based_sleep_eq_spec]
  refine ⟨?_, hts⟩
  unfold decoder_step
  simp only [hp, if_false, Bool.false_eq_true]
  rw [hts]

/-- Witness for C1 at a concrete iteration: queue half full, decoder at
frame 1 with no elapsed time. -/
theorem C1_dual_rate_limit_witness :
    (decoder_step 60 ⟨0, 0, 0⟩ ⟨0, 0, 0, 50, 100, false⟩).1.now =
      0 + 0
        + max (spec_occupancy_delay ((50 : ℚ) / (100 : ℚ)))
            (spec_wallclock_delay (0 + 1) ((60 : ℚ) / 1000) (0 + 0 - 0))
        + 0 + 0
    ∧ target_sleep 50 100 (0 + 1) 60 (0 + 0 - 0) =
      max (spec_occupancy_delay ((50 : ℚ) / (100 : ℚ)))
        (spec_wallclock_delay (0 + 1) ((60 : ℚ) / 1000) (0 + 0 - 0)) :=
  C1_dual_rate_limit 60 ⟨0, 0, 0⟩ ⟨0, 0, 0, 50, 100, false⟩ (by norm_num) rfl

/-- `decoder_step` never changes the recorded decode start time. -/
lemma decoder_step_start_time (d : ℚ) (s : DecState) (e : DecEnv) :
    (decoder_step d s e).1.start_time = s.start_time := by
  unfold decoder_step
  by_cases hpt : e.put_timeout <;> simp [hpt]

/-- Shape of an enqueue event produced by one decoder iteration. -/
lemma decoder_step_event (d : ℚ) (s : DecState) (e : DecEnv) (k : Nat) (t : ℚ)
    (h : (decoder_step d s e).2 = some (k, t)) :
    k = s.frame_count + 1 ∧
    t = s.now + e.read_delay
        + target_sleep e.qsize e.qmaxsize (s.frame_count + 1) d
            (s.now + e.read_delay - s.start_time)
        + e.sleep_extra + e.put_delay := by
  unfold decoder_step at h
  by_cases hpt : e.put_timeout <;> simp [hpt] at h
  exact ⟨h.1.symm, h.2.symm⟩

/-- The wall-clock time of every enqueue event of an iteration is at
least the expected playback time of the enqueued frame. -/
lemma decoder_step_event_bound (d t0 : ℚ) (s : DecState) (e : DecEnv)
    (he : e.valid) (hs : s.start_time = t0) (k : Nat) (t : ℚ)
    (h : (decoder_step d s e).2 = some (k, t)) :
    (k : ℚ) * (d / 1000) ≤ t - t0 := by
  obtain ⟨hk, ht⟩ := decoder_step_event d s e k t h
  obtain ⟨h1, h2, h3⟩ := he
  subst hk ht hs
  have hmax : time_based_sleep (s.frame_count + 1) d
      (s.now + e.read_delay - s.start_time) ≤
      target_sleep e.qsize e.qmaxsize (s.frame_count + 1) d
        (s.now + e.read_delay - s.start_time) := le_max_right _ _
  unfold time_based_sleep at hmax
  split_ifs at hmax with hc
  · push_cast at hc hmax ⊢
    linarith
  · push_cast at hc hmax ⊢
    linarith

/-- Every enqueue event of a decoder run started at `t0` satisfies the
real-time bound. -/
lemma decoder_run_events_bound (d t0 : ℚ) (envs : List DecEnv)
    (hv : ∀ e ∈ envs, e.valid) (s : DecState) (hs : s.start_time = t0) :
    ∀ k t, (k, t) ∈ (decoder_run d s envs).2 → (k : ℚ) * (d / 1000) ≤ t - t0 := by
  induction envs generalizing s with
  | nil => simp [decoder_run]
  | cons e es ih =>
    intro k t hmem
    simp only [decoder_run, List.mem_append] at hmem
    rcases hmem with hmem | hmem
    · rcases hev : (decoder_step d s e).2 with _ | ⟨k0, t0v⟩
      · simp [hev] at hmem
      · rw [hev] at hmem
        simp only [Option.toList_some, List.mem_singleton, Prod.mk.injEq] at hmem
        obtain ⟨rfl, rfl⟩ : k = k0 ∧ t = t0v := hmem
        exact decoder_step_event_bound d t0 s e (hv e (by simp)) hs k t hev
    · exact ih (fun x hx => hv x (by simp [hx])) (decoder_step d s e).1
        (by rw [decoder_step_start_time, hs]) k t hmem

/-- C2: under the dual rate limit, for every frame index `k`, at the
moment the `k`-th decoded frame is enqueued the wall-clock time elapsed
since decoding started is at least `k` frame durations minus one frame
duration — the decoder never outputs frames faster than real time, no
matter how fast the subprocess delivers data. -/
theorem C2_decoder_never_ahead_of_real_time (d t0 : ℚ) (hd : 0 ≤ d)
    (envs : List DecEnv) (hv : ∀ e ∈ envs, e.valid) (k : Nat) (t : ℚ)
    (hev : (k, t) ∈ (decoder_run d ⟨0, t0, t0⟩ envs).2) :
    (k : ℚ) * (d / 1000) - d / 1000 ≤ t - t0 := by
  have h := decoder_run_events_bound d t0 envs hv ⟨0, t0, t0⟩ rfl k t hev
  have h2 : 0 ≤ d / 1000 := by positivity
  linarith

/-- Witness for C2: a one-iteration run with an instantaneous read; the
single frame is enqueued only 60 ms after the start. -/
theorem C2_decoder_never_ahead_of_real_time_witness :
    ((1 : Nat) : ℚ) * (60 / 1000) - 60 / 1000 ≤ 3/50 - 0 :=
  C2_decoder_never_ahead_of_real_time 60 0 (by norm_num)
    [⟨0, 0, 0, 0, 100, false⟩]
    (by intro e he; simp only [List.mem_singleton] at he; subst he
        exact ⟨le_refl 0, le_refl 0, le_refl 0⟩)
    1 (3/50)
    (by
      have hrun : (decoder_run 60 ⟨0, 0, 0⟩ [⟨0, 0, 0, 0, 100, false⟩]).2 =
          [(1, 3/50)] := by
        norm_num [decoder_run, decoder_step, target_sleep, queue_based_sleep,
          time_based_sleep]
      rw [hrun]
      exact List.mem_singleton.mpr rfl)

/-- Characterization of `safe_queue_put` on a valid bounded queue
(positive maxsize, occupancy within bound): not-full appends; full with
`replace_oldest` drops the head and appends; full without it fails
leaving the queue untouched.  No exception escapes. -/
lemma safe_queue_put_eq (m : Nat) (items : List α) (x : α) (b : Bool)
    (h1 : 1 ≤ m) (h2 : items.length ≤ m) :
    safe_queue_put ⟨m, items⟩ x b =
      if items.length < m then some (⟨m, items ++ [x]⟩, true)
      else if b then some (⟨m, items.tail ++ [x]⟩, true)
      else some (⟨m, items⟩, false) := by
  by_cases hlt : items.length < m
  · have hfull : (BQueue.mk m items).full = false := by
      simp only [BQueue.full, Bool.and_eq_false_iff, decide_eq_false_iff_not]
      omega
    simp [safe_queue_put, BQueue.put_nowait, hfull, hlt]
  · have heq : items.length = m := by omega
    have hfull : (BQueue.mk m items).full = true := by
      simp only [BQueue.full, Bool.and_eq_true, decide_eq_true_eq]
      omega
    cases items with
    | nil =>
      exfalso
      simp at heq
      omega
    | cons y rest =>
      have hrest : rest.length + 1 = m := by simpa using heq
      have hfull2 : (BQueue.mk m rest).full = false := by
        simp only [BQueue.full, Bool.and_eq_false_iff, decide_eq_false_iff_not]
        omega
      cases b with
      | true =>
        simp [safe_queue_put, BQueue.put_nowait, BQueue.get_nowait, hfull,
          hfull2, hlt]
        rw [if_neg (by omega)]
      | false =>
        simp [safe_queue_put, BQueue.put_nowait, hfull, hlt]
        rw [if_neg (by omega)]

/-- Folding `safe_queue_put` with `replace_oldest = True` over a list:
starting from a valid queue, every put succeeds and the queue ends with
the most recent `maxsize` elements of `old contents ++ new items`. -/
lemma safe_put_run_spec (l : List α) :
    ∀ (m : Nat) (items : List α), 1 ≤ m → items.length ≤ m →
      safe_put_run ⟨m, items⟩ l =
        some (⟨m, (items ++ l).drop (items.length + l.length - m)⟩,
              List.replicate l.length true) := by
  induction l with
  | nil =>
    intro m items h1 h2
    simp [safe_put_run, Nat.sub_eq_zero_of_le h2]
  | cons x xs ih =>
    intro m items h1 h2
    by_cases hlt : items.length < m
    · have hput : safe_queue_put ⟨m, items⟩ x true = some (⟨m, items ++ [x]⟩, true) := by
        rw [safe_queue_put_eq m items x true h1 h2, if_pos hlt]
      have hrec := ih m (items ++ [x]) h1 (by simp; omega)
      simp only [safe_put_run, hput, hrec]
      have hlist : items ++ [x] ++ xs = items ++ x :: xs := by
        rw [List.append_assoc, List.singleton_append]
      have hnum : (items ++ [x]).length + xs.length - m =
          items.length + (x :: xs).length - m := by
        simp
        omega
      rw [hlist, hnum, List.length_cons, List.replicate_succ]
    · have heq : items.length = m := by omega
      cases items with
      | nil =>
        exfalso
        simp at heq
        omega
      | cons y rest =>
        have hrest : rest.length + 1 = m := by simpa using heq
        have hput : safe_queue_put ⟨m, y :: rest⟩ x true =
            some (⟨m, rest ++ [x]⟩, true) := by
          rw [safe_queue_put_eq m (y :: rest) x true h1 h2, if_neg hlt]
          simp
        have hrec := ih m (rest ++ [x]) h1 (by simp; omega)
        simp only [safe_put_run, hput, hrec]
        have hlist : rest ++ [x] ++ xs = rest ++ x :: xs := by
          rw [List.append_assoc, List.singleton_append]
        have hn1 : (rest ++ [x]).length + xs.length - m = xs.length := by
          simp
          omega
        have hn2 : (y :: rest).length + (x :: xs).length - m = xs.length + 1 := by
          simp
          omega
        rw [hlist, hn1, hn2, List.length_cons, List.replicate_succ]
        rw [List.cons_append, List.drop_succ_cons]

/-- C3: for a bounded queue of capacity `N ≥ 1`, enqueueing `N + 1`
items with the drop-oldest policy leaves exactly the `N` most recently
enqueued items in enqueue order with every put reporting success, and
`WakeWordDetector.on_audio_data`, when the detector is active, performs
exactly the drop-oldest `safe_queue_put` on its audio queue. -/
theorem C3_drop_oldest_keeps_recent {α : Type} (N : Nat) (hN : 1 ≤ N)
    (start_items : List α) (hstart : start_items.length ≤ N)
    (l : List α) (hl : l.length = N + 1)
    (s : WWState) (d : List ℤ)
    (hen : s.enabled = true) (hrun : s.is_running_flag = true)
    (hpa : s.paused = false)
    (hw1 : 1 ≤ s.audio_queue.maxsize)
    (hw2 : s.audio_queue.items.length ≤ s.audio_queue.maxsize) :
    safe_put_run ⟨N, start_items⟩ l =
      some (⟨N, l.drop 1⟩, List.replicate (N + 1) true)
    ∧ on_audio_data s d =
        (safe_queue_put s.audio_queue d true).map
          (fun p => { s with audio_queue := p.1 }) := by
  constructor
  · rw [safe_put_run_spec l N start_items hN hstart, hl]
    have hd : start_items.length + (N + 1) - N = start_items.length + 1 := by
      omega
    rw [hd, List.drop_append 1]
  · obtain ⟨en, running, pa, ⟨m, items⟩⟩ := s
    simp only at hen hrun hpa hw1 hw2
    subst hen hrun hpa
    rw [safe_queue_put_eq m items d true hw1 hw2]
    by_cases hlt : items.length < m
    · have hfull : (BQueue.mk m items).full = false := by
        simp only [BQueue.full, Bool.and_eq_false_iff, decide_eq_false_iff_not]
        omega
      simp [on_audio_data, BQueue.put_nowait, hfull, hlt]
    · have heq : items.length = m := by omega
      cases items with
      | nil =>
        exfalso
        simp at heq
        omega
      | cons y rest =>
        have hfull : (BQueue.mk m (y :: rest)).full = true := by
          simp only [BQueue.full, Bool.and_eq_true, decide_eq_true_eq]
          omega
        have hfull2 : (BQueue.mk m rest).full = false := by
          simp only [BQueue.full, Bool.and_eq_false_iff,
            decide_eq_false_iff_not]
          simp at heq
          omega
        simp [on_audio_data, BQueue.put_nowait, BQueue.get_nowait, hfull,
          hfull2, hlt]
        rw [if_neg (by simp at heq; omega)]
        simp

/-- Witness for C3: capacity 2, three items 7, 8, 9 enqueued into an
empty queue keep `[8, 9]`; a concrete active detector state forwards a
frame through `safe_queue_put`. -/
theorem C3_drop_oldest_keeps_recent_witness :
    safe_put_run (⟨2, []⟩ : BQueue Nat) [7, 8, 9] =
      some (⟨2, [7, 8, 9].drop 1⟩, List.replicate (2 + 1) true)
    ∧ on_audio_data ⟨true, true, false, ⟨100, []⟩⟩ [5] =
        (safe_queue_put (BQueue.mk 100 []) [5] true).map
          (fun p => { WWState.mk true true false ⟨100, []⟩ with audio_queue := p.1 }) :=
  C3_drop_oldest_keeps_recent 2 (by norm_num) [] (by simp) [7, 8, 9] (by simp)
    ⟨true, true, false, ⟨100, []⟩⟩ [5] rfl rfl rfl (by norm_num) (by simp)

/-- A successful `safe_queue_put` on a valid queue keeps the capacity
and never exceeds it. -/
lemma safe_queue_put_bound (m : Nat) (items : List α) (x : α) (b : Bool)
    (h1 : 1 ≤ m) (h2 : items.length ≤ m) (q2 : BQueue α) (r : Bool)
    (h : safe_queue_put ⟨m, items⟩ x b = some (q2, r)) :
    q2.maxsize = m ∧ q2.items.length ≤ m := by
  rw [safe_queue_put_eq m items x b h1 h2] at h
  split_ifs at h with hlt hb
  · cases h
    refine ⟨rfl, ?_⟩
    simp
    omega
  · cases h
    refine ⟨rfl, ?_⟩
    simp [List.length_tail]
    omega
  · cases h
    exact ⟨rfl, h2⟩

/-- Every item of the queue produced by a successful `safe_queue_put`
is either an old item or the newly enqueued one. -/
lemma safe_queue_put_mem (m : Nat) (items : List α) (x : α) (b : Bool)
    (h1 : 1 ≤ m) (h2 : items.length ≤ m) (q2 : BQueue α) (r : Bool)
    (h : safe_queue_put ⟨m, items⟩ x b = some (q2, r)) :
    ∀ y ∈ q2.items, y ∈ items ∨ y = x := by
  rw [safe_queue_put_eq m items x b h1 h2] at h
  split_ifs at h with hlt hb
  · cases h
    intro y hy
    simp at hy
    rcases hy with hy | hy
    · exact Or.inl hy
    · exact Or.inr hy
  · cases h
    intro y hy
    simp at hy
    rcases hy with hy | hy
    · exact Or.inl (List.mem_of_mem_tail hy)
    · exact Or.inr hy
  · cases h
    intro y hy
    exact Or.inl hy

/-- Characterization of `write_pcm_direct` on a valid queue: append the
normalized frame when there is room, otherwise drop it (put timeout). -/
lemma write_pcm_direct_eq (m : Nat) (items : List (List ℤ)) (pcm : List ℤ)
    (h1 : 1 ≤ m) (h2 : items.length ≤ m) :
    write_pcm_direct ⟨m, items⟩ pcm =
      if items.length < m then ⟨m, items ++ [normalize_pcm pcm]⟩
      else ⟨m, items⟩ := by
  unfold write_pcm_direct
  rw [safe_queue_put_eq m items (normalize_pcm pcm) false h1 h2]
  split_ifs <;> first | rfl | contradiction

/-- Characterization of `write_audio` on a valid queue: drop frames of
non-protocol length; otherwise append, displacing the oldest item when
full. -/
lemma write_audio_eq (m : Nat) (items : List (List ℤ)) (pcm : List ℤ)
    (h1 : 1 ≤ m) (h2 : items.length ≤ m) :
    write_audio ⟨m, items⟩ pcm =
      if pcm.length ≠ OUTPUT_FRAME_SIZE * CHANNELS then ⟨m, items⟩
      else if items.length < m then ⟨m, items ++ [pcm]⟩
      else ⟨m, items.tail ++ [pcm]⟩ := by
  unfold write_audio
  rw [safe_queue_put_eq m items pcm true h1 h2]
  split_ifs <;> first | rfl | contradiction

/-- Each playback-queue operation keeps the capacity and the occupancy
bound. -/
lemma codec_apply_bound (q : BQueue (List ℤ)) (op : CodecOp)
    (h1 : 1 ≤ q.maxsize) (h2 : q.items.length ≤ q.maxsize) :
    (codec_apply q op).maxsize = q.maxsize ∧
    (codec_apply q op).items.length ≤ q.maxsize := by
  obtain ⟨m, items⟩ := q
  simp only at h1 h2
  cases op with
  | voice pcm =>
    simp only [codec_apply]
    rw [write_audio_eq m items pcm h1 h2]
    split_ifs with hne hlt
    · exact ⟨rfl, h2⟩
    · refine ⟨rfl, ?_⟩
      simp
      omega
    · refine ⟨rfl, ?_⟩
      simp [List.length_tail]
      omega
  | music pcm =>
    simp only [codec_apply]
    rw [write_pcm_direct_eq m items pcm h1 h2]
    split_ifs with hlt
    · refine ⟨rfl, ?_⟩
      simp
      omega
    · exact ⟨rfl, h2⟩
  | deq =>
    simp only [codec_apply, BQueue.get_nowait]
    cases items with
    | nil => exact ⟨rfl, h2⟩
    | cons y rest =>
      simp at h2 ⊢
      omega
  | clear =>
    exact ⟨rfl, by simp [codec_apply]⟩

/-- A run of playback-queue operations keeps the capacity and the
occupancy bound. -/
lemma codec_run_bound (ops : List CodecOp) :
    ∀ q : BQueue (List ℤ), 1 ≤ q.maxsize → q.items.length ≤ q.maxsize →
      (codec_run q ops).maxsize = q.maxsize ∧
      (codec_run q ops).items.length ≤ q.maxsize := by
  induction ops with
  | nil =>
    intro q h1 h2
    exact ⟨rfl, h2⟩
  | cons op rest ih =>
    intro q h1 h2
    have hb := codec_apply_bound q op h1 h2
    have hr := ih (codec_apply q op) (hb.1 ▸ h1) (hb.1 ▸ hb.2)
    simp only [codec_run, List.foldl_cons] at hr ⊢
    exact ⟨hr.1.trans hb.1, hb.1 ▸ hr.2⟩

/-- C4 (amended): the shared playback queue owned by `AudioCodec` is
bounded with capacity 500; under any sequence of voice and music
enqueues (and pops and clears) its occupancy never exceeds 500. -/
theorem C4_playback_queue_bounded_by_500 (ops : List CodecOp) :
    (codec_run init_output_buffer ops).items.length ≤ 500
    ∧ (codec_run init_output_buffer ops).maxsize = 500 := by
  have h := codec_run_bound ops init_output_buffer (by norm_num [init_output_buffer])
    (by simp [init_output_buffer])
  simp only [init_output_buffer] at h
  exact ⟨h.2, h.1⟩

/-- Enqueueing `n` music frames into a queue with enough headroom
raises the occupancy by exactly `n`. -/
lemma codec_music_fill (n : Nat) :
    ∀ q : BQueue (List ℤ), q.items.length + n ≤ q.maxsize →
      (codec_run q (List.replicate n (CodecOp.music []))).items.length =
        q.items.length + n := by
  induction n with
  | zero =>
    intro q h
    simp [codec_run]
  | succ k ih =>
    intro q h
    obtain ⟨m, items⟩ := q
    simp only at h
    have h1 : 1 ≤ m := by omega
    have h2 : items.length ≤ m := by omega
    have hlt : items.length < m := by omega
    have hstep : codec_apply ⟨m, items⟩ (CodecOp.music []) =
        ⟨m, items ++ [normalize_pcm []]⟩ := by
      simp only [codec_apply]
      rw [write_pcm_direct_eq m items [] h1 h2, if_pos hlt]
    have hr := ih ⟨m, items ++ [normalize_pcm []]⟩ (by simp; omega)
    simp only [List.replicate_succ, codec_run, List.foldl_cons, hstep] at hr ⊢
    simp only [List.length_append, List.length_singleton] at hr
    omega

/-- Counterexample to C4 as stated: the playback queue is created with
maxsize 500, not ≈100, and a sequence of music enqueues drives its
occupancy to 500 — far beyond any reading of "approximately 100". -/
theorem C4_counterexample_capacity :
    init_output_buffer.maxsize = 500
    ∧ (codec_run init_output_buffer
        (List.replicate 500 (CodecOp.music []))).items.length = 500
    ∧ 100 < 500 := by
  refine ⟨rfl, ?_, by norm_num⟩
  have h := codec_music_fill 500 init_output_buffer (by norm_num [init_output_buffer])
  rw [h]
  rfl

/-- C6: frames of non-protocol length are dropped by `write_audio`
without enqueueing; `write_pcm_direct` pads short frames with trailing
silence and truncates long frames to exactly the protocol length; and
every playback-queue operation preserves the invariant that every
queued item has exactly `OUTPUT_FRAME_SIZE * CHANNELS` samples. -/
theorem C6_playback_queue_frame_length (q : BQueue (List ℤ)) (op : CodecOp)
    (pcm : List ℤ)
    (h1 : 1 ≤ q.maxsize) (h2 : q.items.length ≤ q.maxsize)
    (hinv : ∀ y ∈ q.items, y.length = OUTPUT_FRAME_SIZE * CHANNELS) :
    (∀ y ∈ (codec_apply q op).items, y.length = OUTPUT_FRAME_SIZE * CHANNELS)
    ∧ (pcm.length ≠ OUTPUT_FRAME_SIZE * CHANNELS → write_audio q pcm = q)
    ∧ (normalize_pcm pcm).length = OUTPUT_FRAME_SIZE * CHANNELS
    ∧ (pcm.length < OUTPUT_FRAME_SIZE * CHANNELS →
        normalize_pcm pcm =
          pcm ++ List.replicate (OUTPUT_FRAME_SIZE * CHANNELS - pcm.length) 0)
    ∧ (OUTPUT_FRAME_SIZE * CHANNELS ≤ pcm.length →
        normalize_pcm pcm = pcm.take (OUTPUT_FRAME_SIZE * CHANNELS)) := by
  have hnorm : ∀ a : List ℤ, (normalize_pcm a).length =
      OUTPUT_FRAME_SIZE * CHANNELS := by
    intro a
    unfold normalize_pcm
    split_ifs with hlen
    · simp
      omega
    · simp
      omega
  refine ⟨?_, ?_, hnorm pcm, ?_, ?_⟩
  · obtain ⟨m, items⟩ := q
    simp only at h1 h2 hinv
    cases op with
    | voice pcm2 =>
      simp only [codec_apply]
      rw [write_audio_eq m items pcm2 h1 h2]
      split_ifs with hne hlt
      · exact hinv
      · intro y hy
        simp at hy
        rcases hy with hy | rfl
        · exact hinv y hy
        · exact Decidable.not_not.mp hne
      · intro y hy
        simp at hy
        rcases hy with hy | rfl
        · exact hinv y (List.mem_of_mem_tail hy)
        · exact Decidable.not_not.mp hne
    | music pcm2 =>
      simp only [codec_apply]
      rw [write_pcm_direct_eq m items pcm2 h1 h2]
      split_ifs with hlt
      · intro y hy
        simp at hy
        rcases hy with hy | rfl
        · exact hinv y hy
        · exact hnorm pcm2
      · exact hinv
    | deq =>
      simp only [codec_apply, BQueue.get_nowait]
      cases items with
      | nil => exact hinv
      | cons z rest =>
        intro y hy
        exact hinv y (List.mem_cons_of_mem z hy)
    | clear =>
      intro y hy
      simp [codec_apply] at hy
  · intro hlen
    simp [write_audio, hlen]
  · intro hlen
    simp only [normalize_pcm]
    rw [if_pos hlen]
  · intro hlen
    simp only [normalize_pcm]
    rw [if_neg (by omega)]

/-- Witness for C6: a 2-sample voice frame is dropped; a 1-sample music
frame is padded to the 1440-sample protocol length before enqueueing
into the empty 500-capacity queue. -/
theorem C6_playback_queue_frame_length_witness :
    (∀ y ∈ (codec_apply ⟨500, []⟩ (CodecOp.music [9])).items,
        y.length = OUTPUT_FRAME_SIZE * CHANNELS)
    ∧ ([(9 : ℤ), 9].length ≠ OUTPUT_FRAME_SIZE * CHANNELS →
        write_audio ⟨500, []⟩ [9, 9] = ⟨500, []⟩)
    ∧ (normalize_pcm [(9 : ℤ), 9]).length = OUTPUT_FRAME_SIZE * CHANNELS
    ∧ ([(9 : ℤ), 9].length < OUTPUT_FRAME_SIZE * CHANNELS →
        normalize_pcm [(9 : ℤ), 9] =
          [(9 : ℤ), 9] ++
            List.replicate (OUTPUT_FRAME_SIZE * CHANNELS - [(9 : ℤ), 9].length) 0)
    ∧ (OUTPUT_FRAME_SIZE * CHANNELS ≤ [(9 : ℤ), 9].length →
        normalize_pcm [(9 : ℤ), 9] = [(9 : ℤ), 9].take (OUTPUT_FRAME_SIZE * CHANNELS)) :=
  C6_playback_queue_frame_length ⟨500, []⟩ (CodecOp.music [9]) [9, 9]
    (by norm_num) (by simp) (by simp)

/-- `np.rint` returns a nearest integer: it is never more than half a
unit away from its argument. -/
lemma np_rint_nearest (q : ℚ) : |((np_rint q : ℤ) : ℚ) - q| ≤ 1/2 := by
  have h0 : ((⌊q⌋ : ℤ) : ℚ) ≤ q := Int.floor_le q
  have h1 : q < ⌊q⌋ + 1 := Int.lt_floor_add_one q
  unfold np_rint
  split_ifs with ha hb hc
  · rw [abs_le]
    constructor <;> linarith
  · rw [abs_le]
    push_cast
    constructor <;> linarith
  · rw [abs_le]
    constructor <;> linarith
  · rw [abs_le]
    push_cast
    constructor <;> linarith

/-- `np.rint` of a value between two integer bounds stays between the
bounds. -/
lemma np_rint_bounds (q : ℚ) (lo hi : ℤ) (hlo : (lo : ℚ) ≤ q) (hhi : q ≤ (hi : ℚ)) :
    lo ≤ np_rint q ∧ np_rint q ≤ hi := by
  have hfl : lo ≤ ⌊q⌋ := Int.le_floor.mpr hlo
  have hfh : ⌊q⌋ ≤ hi := by
    have : (⌊q⌋ : ℚ) ≤ (hi : ℚ) := le_trans (Int.floor_le q) hhi
    exact_mod_cast this
  have hup : 1/2 ≤ q - ⌊q⌋ → ⌊q⌋ + 1 ≤ hi := by
    intro hge
    have hlt : ((⌊q⌋ : ℤ) : ℚ) < (hi : ℚ) := by linarith
    have : ⌊q⌋ < hi := by exact_mod_cast hlt
    omega
  unfold np_rint
  split_ifs with ha hb hc
  · exact ⟨hfl, hfh⟩
  · exact ⟨by omega, hup (by linarith)⟩
  · exact ⟨hfl, hfh⟩
  · exact ⟨by omega, hup (by linarith)⟩

/-- Sum bounds for a list of integers each between `lo` and `hi`. -/
lemma row_sum_bounds (lo hi : ℤ) (row : List ℤ)
    (h : ∀ x ∈ row, lo ≤ x ∧ x ≤ hi) :
    (row.length : ℤ) * lo ≤ row.sum ∧ row.sum ≤ (row.length : ℤ) * hi := by
  induction row with
  | nil => simp
  | cons x xs ih =>
    have hx := h x (by simp)
    have hxs := ih (fun y hy => h y (by simp [hy]))
    simp only [List.sum_cons, List.length_cons]
    push_cast
    constructor
    · have := hxs.1
      nlinarith [hx.1]
    · have := hxs.2
      nlinarith [hx.2]

/-- The arithmetic mean of in-range samples is in range. -/
lemma row_mean_bounds (lo hi : ℤ) (row : List ℤ) (hne : 1 ≤ row.length)
    (h : ∀ x ∈ row, lo ≤ x ∧ x ≤ hi) :
    (lo : ℚ) ≤ row_mean row ∧ row_mean row ≤ (hi : ℚ) := by
  have hs := row_sum_bounds lo hi row h
  have hn : 0 < (row.length : ℚ) := by
    have : 0 < row.length := hne
    exact_mod_cast this
  unfold row_mean
  constructor
  · rw [le_div_iff₀ hn]
    have : ((row.length : ℤ) * lo : ℚ) ≤ ((row.sum : ℤ) : ℚ) := by
      exact_mod_cast hs.1
    push_cast at this ⊢
    linarith
  · rw [div_le_iff₀ hn]
    have : ((row.sum : ℤ) : ℚ) ≤ ((row.length : ℤ) * hi : ℚ) := by
      exact_mod_cast hs.2
    push_cast at this ⊢
    linarith

/-- C5: on a multi-channel int16 frame, `downmix_to_mono` takes the
per-sample arithmetic mean across channels, rounds it to a nearest
integer and clamps it into the int16 range; for in-range (full-scale)
inputs the clamp never engages — the result is exactly the rounded mean
and lies in range, so nothing wraps or overflows. -/
theorem C5_downmix_mean_round_clamp (C : Nat) (frame : List (List ℤ))
    (hC : 2 ≤ C) (hlen : ∀ row ∈ frame, row.length = C)
    (hrange : ∀ row ∈ frame, ∀ x ∈ row, INT16_MIN ≤ x ∧ x ≤ INT16_MAX) :
    downmix_to_mono C frame =
      frame.map (fun row => np_clip (np_rint (row_mean row)) INT16_MIN INT16_MAX)
    ∧ (∀ row ∈ frame, |((downmix_row row : ℤ) : ℚ) - row_mean row| ≤ 1/2)
    ∧ (∀ row ∈ frame, INT16_MIN ≤ downmix_row row ∧ downmix_row row ≤ INT16_MAX)
    ∧ (∀ row ∈ frame, downmix_row row = np_rint (row_mean row)) := by
  have hexact : ∀ row ∈ frame, downmix_row row = np_rint (row_mean row) := by
    intro row hrow
    have hb := row_mean_bounds INT16_MIN INT16_MAX row
      (by rw [hlen row hrow]; omega) (hrange row hrow)
    have hr := np_rint_bounds (row_mean row) INT16_MIN INT16_MAX hb.1 hb.2
    unfold downmix_row np_clip
    rw [min_eq_left hr.2, max_eq_right hr.1]
  have hbounds : ∀ row ∈ frame, INT16_MIN ≤ downmix_row row ∧
      downmix_row row ≤ INT16_MAX := by
    intro row hrow
    have hb := row_mean_bounds INT16_MIN INT16_MAX row
      (by rw [hlen row hrow]; omega) (hrange row hrow)
    rw [hexact row hrow]
    exact np_rint_bounds (row_mean row) INT16_MIN INT16_MAX hb.1 hb.2
  refine ⟨?_, ?_, hbounds, hexact⟩
  · unfold downmix_to_mono
    rw [if_neg (by omega)]
    rfl
  · intro row hrow
    rw [hexact row hrow]
    exact np_rint_nearest (row_mean row)

/-- Witness for C5 on a full-scale stereo frame. -/
theorem C5_downmix_mean_round_clamp_witness :
    downmix_to_mono 2 [[32767, 32766], [-32768, -32768]] =
      [[(32767 : ℤ), 32766], [-32768, -32768]].map
        (fun row => np_clip (np_rint (row_mean row)) INT16_MIN INT16_MAX)
    ∧ (∀ row ∈ [[(32767 : ℤ), 32766], [-32768, -32768]],
        |((downmix_row row : ℤ) : ℚ) - row_mean row| ≤ 1/2)
    ∧ (∀ row ∈ [[(32767 : ℤ), 32766], [-32768, -32768]],
        INT16_MIN ≤ downmix_row row ∧ downmix_row row ≤ INT16_MAX)
    ∧ (∀ row ∈ [[(32767 : ℤ), 32766], [-32768, -32768]],
        downmix_row row = np_rint (row_mean row)) :=
  C5_downmix_mean_round_clamp 2 [[32767, 32766], [-32768, -32768]]
    (by norm_num)
    (by intro row hrow; simp at hrow; rcases hrow with rfl | rfl <;> rfl)
    (by
      intro row hrow x hx
      simp at hrow
      rcases hrow with rfl | rfl <;> simp [INT16_MIN, INT16_MAX] at hx ⊢ <;>
        rcases hx with rfl | rfl <;> norm_num)

/-- C7: on a speech-stop notification with TTS no longer active and a
working decoder: a pending deferred start is performed now at the
recorded offset (not discarded); otherwise a pause whose source is
`tts` is resumed (decoder restarted at the recorded position); and a
pause whose source is `manual` is never auto-resumed — the state is
left untouched. -/
theorem C7_speech_stop_resume (s : PlayerState) (env : PlayerEnv)
    (hspeak : env.speaking = false) (hdec : env.decode_ok = true)
    (hfile : env.file_exists = true) :
    (∀ p, s.deferred_start_path = some p →
      (resume_music_after_tts s env).decoder = some (p, s.deferred_start_position)
      ∧ (resume_music_after_tts s env).is_playing = true
      ∧ (resume_music_after_tts s env).paused = false
      ∧ (resume_music_after_tts s env).deferred_start_path = none
      ∧ (resume_music_after_tts s env).current_position = s.deferred_start_position)
    ∧ (∀ f, s.deferred_start_path = none → s.is_playing = true → s.paused = true →
        s.pause_source = some PauseSrc.tts → s.current_file_path = some f →
        (resume_music_after_tts s env).paused = false
        ∧ (resume_music_after_tts s env).pause_source = none
        ∧ (resume_music_after_tts s env).is_playing = true
        ∧ (resume_music_after_tts s env).decoder = some (f, s.current_position))
    ∧ (s.deferred_start_path = none → s.pause_source = some PauseSrc.manual →
        resume_music_after_tts s env = s) := by
  refine ⟨?_, ?_, ?_⟩
  · intro p hp
    simp only [resume_music_after_tts, hp]
    simp only [start_playback, hspeak, Bool.false_eq_true, if_false, hdec,
      if_true]
    simp
  · intro f hdef hplay hpaused hsrc hfp
    simp only [resume_music_after_tts, hdef, hplay, hpaused, Bool.and_self,
      if_true, hsrc, if_pos rfl]
    simp only [resume, hplay, hpaused, Bool.true_eq_false, if_false, hfp,
      hfile, hdec, if_true]
    simp
  · intro hdef hsrc
    simp only [resume_music_after_tts, hdef, hsrc]
    by_cases hp : s.is_playing && s.paused
    · simp [hp]
    · simp [hp]

/-- Concrete deferred-start state used as witness input: track 3
recorded at offset 42 while speech was active. -/
def c7_state : PlayerState :=
  { MusicPlayer.init with
    deferred_start_path := some 3
    deferred_start_position := 42
    is_playing := true
    paused := true }

/-- Environment right after a speech-stop notification: TTS inactive,
decoder starts succeed, files exist. -/
def after_tts_env : PlayerEnv := ⟨0, false, true, true⟩

/-- Witness for C7 at a concrete deferred-start state: track 3 paused
at offset 42 starts when speech stops. -/
theorem C7_speech_stop_resume_witness :
    (∀ p, c7_state.deferred_start_path = some p →
      (resume_music_after_tts c7_state after_tts_env).decoder =
        some (p, c7_state.deferred_start_position)
      ∧ (resume_music_after_tts c7_state after_tts_env).is_playing = true
      ∧ (resume_music_after_tts c7_state after_tts_env).paused = false
      ∧ (resume_music_after_tts c7_state after_tts_env).deferred_start_path = none
      ∧ (resume_music_after_tts c7_state after_tts_env).current_position =
          c7_state.deferred_start_position)
    ∧ (∀ f, c7_state.deferred_start_path = none → c7_state.is_playing = true →
        c7_state.paused = true → c7_state.pause_source = some PauseSrc.tts →
        c7_state.current_file_path = some f →
        (resume_music_after_tts c7_state after_tts_env).paused = false
        ∧ (resume_music_after_tts c7_state after_tts_env).pause_source = none
        ∧ (resume_music_after_tts c7_state after_tts_env).is_playing = true
        ∧ (resume_music_after_tts c7_state after_tts_env).decoder =
            some (f, c7_state.current_position))
    ∧ (c7_state.deferred_start_path = none →
        c7_state.pause_source = some PauseSrc.manual →
        resume_music_after_tts c7_state after_tts_env = c7_state) :=
  C7_speech_stop_resume c7_state after_tts_env rfl rfl rfl

/-- C8: `get_status` reports the paused state only for a manual pause;
a TTS-sourced pause of a playing player is reported as still playing. -/
theorem C8_status_hides_tts_pause (s : PlayerState) :
    (get_status_view s = PlayView.paused_view →
      s.is_playing = true ∧ s.paused = true ∧
        s.pause_source = some PauseSrc.manual)
    ∧ (s.is_playing = true → s.paused = true →
        s.pause_source = some PauseSrc.tts →
        get_status_view s = PlayView.playing_view) := by
  constructor
  · intro h
    unfold get_status_view at h
    split_ifs at h with h1 h2 h3
    exact ⟨by revert h1; cases s.is_playing <;> simp, h2.1, h2.2⟩
  · intro h1 h2 h3
    unfold get_status_view
    rw [if_neg (by simp [h1]), if_neg (by simp [h3]), if_pos h1]

/-- C9 (amended): `seek` is rejected with an error when the player is
not playing; when playing with a positive known duration the requested
position is clamped into `[0, duration)`, the decoder is stopped and
restarted at the clamped offset, and both the internal music queue and
the shared playback queue are drained. -/
theorem C9_seek_clamps_and_drains (s : PlayerState) (position : ℚ)
    (env : PlayerEnv) (f : Nat)
    (hplay : s.is_playing = true) (hfp : s.current_file_path = some f)
    (hfe : env.file_exists = true) (hspeak : env.speaking = false)
    (hdec : env.decode_ok = true) (hdur : 0 < s.total_duration) :
    (seek s position env).2 = StatusKind.success
    ∧ (seek s position env).1.current_position =
        seek_clamp position s.total_duration
    ∧ 0 ≤ seek_clamp position s.total_duration
    ∧ seek_clamp position s.total_duration < s.total_duration
    ∧ (seek s position env).1.decoder =
        some (f, seek_clamp position s.total_duration)
    ∧ (seek s position env).1.music_queue = []
    ∧ (seek s position env).1.output_queue.items = []
    ∧ (∀ s2 : PlayerState, s2.is_playing = false →
        seek s2 position env = (s2, StatusKind.error)) := by
  have hseek : seek s position env =
      ({ is_playing := true
         paused := false
         pause_source := s.pause_source
         current_position := seek_clamp position s.total_duration
         total_duration := s.total_duration
         start_play_time := env.now - seek_clamp position s.total_duration
         current_file_path := some f
         deferred_start_path := none
         deferred_start_position := 0
         decoder := some (f, seek_clamp position s.total_duration)
         music_queue := []
         output_queue := ⟨s.output_queue.maxsize, []⟩
         pending_play := some false
         pending_file_path := s.pending_file_path }, StatusKind.success) := by
    simp only [seek, hplay, Bool.true_eq_false, if_false, hfp, hfe,
      start_playback, hspeak, Bool.false_eq_true, hdec, if_true]
  have hclamp : 0 ≤ seek_clamp position s.total_duration
      ∧ seek_clamp position s.total_duration < s.total_duration := by
    unfold seek_clamp
    split_ifs with h1 h2
    · exact ⟨le_refl 0, hdur⟩
    · constructor
      · exact le_max_left 0 _
      · rw [max_lt_iff]
        exact ⟨hdur, by linarith⟩
    · exact ⟨le_of_not_lt h1, lt_of_not_le h2⟩
  rw [hseek]
  refine ⟨rfl, rfl, hclamp.1, hclamp.2, rfl, rfl, rfl, ?_⟩
  intro s2 h2
  simp [seek, h2]

/-- Concrete playing state used as witness input: track 7, duration
300 s. -/
def c9_state : PlayerState :=
  { MusicPlayer.init with
    is_playing := true
    current_file_path := some 7
    total_duration := 300 }

/-- Witness for C9: seeking the concrete playing player to 500 s clamps
to 299 s and restarts there with drained queues. -/
theorem C9_seek_clamps_and_drains_witness :
    (seek c9_state 500 after_tts_env).2 = StatusKind.success
    ∧ (seek c9_state 500 after_tts_env).1.current_position =
        seek_clamp 500 c9_state.total_duration
    ∧ 0 ≤ seek_clamp 500 c9_state.total_duration
    ∧ seek_clamp 500 c9_state.total_duration < c9_state.total_duration
    ∧ (seek c9_state 500 after_tts_env).1.decoder =
        some (7, seek_clamp 500 c9_state.total_duration)
    ∧ (seek c9_state 500 after_tts_env).1.music_queue = []
    ∧ (seek c9_state 500 after_tts_env).1.output_queue.items = []
    ∧ (∀ s2 : PlayerState, s2.is_playing = false →
        seek s2 500 after_tts_env = (s2, StatusKind.error)) :=
  C9_seek_clamps_and_drains c9_state 500 after_tts_env 7 rfl rfl rfl rfl rfl
    (by norm_num [c9_state, MusicPlayer.init])

/-- Concrete playing state with an unknown (zero) duration. -/
def c9_zero_state : PlayerState :=
  { MusicPlayer.init with
    is_playing := true
    current_file_path := some 1 }

/-- Counterexample to C9 as stated: with an unknown (zero) duration,
seeking a playing player to position 5 clamps the target to 0, which
does not lie in the empty interval `[0, duration) = [0, 0)`. -/
theorem C9_counterexample_zero_duration :
    (seek c9_zero_state 5 after_tts_env).1.current_position = 0
    ∧ c9_zero_state.total_duration = 0
    ∧ ¬ ((0 : ℚ) ≤ (seek c9_zero_state 5 after_tts_env).1.current_position
        ∧ (seek c9_zero_state 5 after_tts_env).1.current_position <
          c9_zero_state.total_duration) := by
  have hpos : (seek c9_zero_state 5 after_tts_env).1.current_position = 0 := by
    simp only [seek, start_playback, seek_clamp, c9_zero_state,
      after_tts_env, MusicPlayer.init]
    norm_num
  refine ⟨hpos, rfl, ?_⟩
  rw [hpos]
  intro h
  have h2 := h.2
  norm_num [c9_zero_state, MusicPlayer.init] at h2

/-- C10: `stop()` on a freshly constructed player does not return the
informational no-op result: the `_pending_play` attribute is absent
after `__init__`, the guard's attribute read raises `AttributeError`,
and the catch-all handler surfaces an error result with the state
unchanged. -/
theorem C10_stop_fresh_player_is_error :
    stop MusicPlayer.init = (MusicPlayer.init, StatusKind.error)
    ∧ MusicPlayer.init.pending_play = none
    ∧ StatusKind.error ≠ StatusKind.info := by
  refine ⟨?_, rfl, by simp⟩
  rfl

end Kiosk
